import Mathlib

/-!
Verification of the code-quality scanner (`src/code_quality_scanner.py`).

The numeric scoring functions of the scanner (class `MetricsCalculator`) are
embedded over `ℚ`: the Python code computes with machine floats, but every
value the claims touch is an exact small decimal, so rational arithmetic is
the faithful model.  `round(x, 2)` is embedded as rounding to the nearest
multiple of `1/100`.

Line-level data (diff lines, author names) is embedded as `List Char`,
matching Python strings viewed as character sequences.
-/

/-- Python's `round(x, 2)`: round to the nearest multiple of 1/100. -/
def round2 (x : ℚ) : ℚ := ((round (x * 100) : ℤ) : ℚ) / 100

/-- The record returned by `MetricsCalculator.calculate_quality_metrics`:
the three dictionary entries 千行代码问题数, 千行代码问题率, 质量分数. -/
structure QualityMetrics where
  issuesPerKloc : ℚ
  issueRatePerKloc : ℚ
  qualityScore : ℚ
deriving DecidableEq, Repr

/-- `MetricsCalculator.calculate_quality_metrics` (source lines 325-356):
if `total_lines == 0` return zero density figures and quality 100, otherwise
`issues_per_kloc = total_issues / total_lines * 1000` (computed twice, once as
the count and once as the rate), `quality_score = max(0, 100 - issues_per_kloc * 2)`,
each value rounded to two decimal places on return. -/
def calculate_quality_metrics (total_issues total_lines : ℕ) : QualityMetrics :=
  if total_lines = 0 then
    { issuesPerKloc := 0, issueRatePerKloc := 0, qualityScore := 100 }
  else
    let issues_per_kloc : ℚ := ((total_issues : ℚ) / (total_lines : ℚ)) * 1000
    let issue_rate_per_kloc : ℚ := ((total_issues : ℚ) / (total_lines : ℚ)) * 1000
    let quality_score : ℚ := max 0 (100 - issues_per_kloc * 2)
    { issuesPerKloc := round2 issues_per_kloc
      issueRatePerKloc := round2 issue_rate_per_kloc
      qualityScore := round2 quality_score }

/-- `MetricsCalculator.calculate_quantity_score` (source lines 358-393):
neutral 50 when the cohort average is zero, otherwise a discrete tier keyed
on `ratio = total_lines / avg_lines` with inclusive lower bounds. -/
def calculate_quantity_score (total_lines avg_lines : ℚ) : ℚ :=
  if avg_lines = 0 then 50
  else
    let r := total_lines / avg_lines
    if r ≥ 2 then 100
    else if r ≥ 1.5 then 90
    else if r ≥ 1 then 80
    else if r ≥ 0.8 then 70
    else if r ≥ 0.6 then 60
    else if r ≥ 0.4 then 50
    else if r ≥ 0.2 then 40
    else 30

/-- `MetricsCalculator.calculate_final_score` (source lines 395-408):
`round(quality_score * 0.8 + quantity_score * 0.2, 2)`. -/
def calculate_final_score (quality_score quantity_score : ℚ) : ℚ :=
  round2 (quality_score * 0.8 + quantity_score * 0.2)

/-- The quantity-score tier map exactly as the specification words it
(§4.4): "Map ratio to a discrete tier via descending thresholds:
≥2.0→100, ≥1.5→90, ≥1.0→80, ≥0.8→70, ≥0.6→60, ≥0.4→50, ≥0.2→40, else→30",
thresholds inclusive on the lower bound of each band. -/
def quantityTierSpec (r : ℚ) : ℚ :=
  if r ≥ 2.0 then 100
  else if r ≥ 1.5 then 90
  else if r ≥ 1.0 then 80
  else if r ≥ 0.8 then 70
  else if r ≥ 0.6 then 60
  else if r ≥ 0.4 then 50
  else if r ≥ 0.2 then 40
  else 30

theorem round2_eq_of_bounds (x : ℚ) (n : ℤ)
    (h1 : (n : ℚ) ≤ x * 100 + 1 / 2) (h2 : x * 100 + 1 / 2 < n + 1) :
    round2 x = (n : ℚ) / 100 := by
  unfold round2
  rw [round_eq, show ⌊x * 100 + 1 / 2⌋ = n from (Int.floor_eq_iff).2 ⟨h1, h2⟩]

theorem round2_mono {x y : ℚ} (h : x ≤ y) : round2 x ≤ round2 y := by
  unfold round2
  have h2 : round (x * 100) ≤ round (y * 100) := by
    rw [round_eq, round_eq]
    exact Int.floor_mono (by linarith)
  have h3 : ((round (x * 100) : ℤ) : ℚ) ≤ ((round (y * 100) : ℤ) : ℚ) := by
    exact_mod_cast h2
  linarith

theorem round2_zero : round2 0 = 0 := by
  have := round2_eq_of_bounds 0 0 (by norm_num) (by norm_num)
  simpa using this

theorem round2_hundred : round2 100 = 100 := by
  have := round2_eq_of_bounds 100 10000 (by norm_num) (by norm_num)
  rw [this]; norm_num

/-- Claim C1 counterexample: the quality-metrics calculation does not return
the exact value `issues / lines * 1000` as its issues-per-thousand-lines
figure — the code rounds each returned figure to two decimal places
(`round(issues_per_kloc, 2)`), so at 1 issue over 3 lines it returns 333.33,
not 1000/3. -/
theorem quality_metrics_density_rounded_cex :
    (calculate_quality_metrics 1 3).issuesPerKloc ≠ ((1 : ℚ) / 3) * 1000 := by
  have h : (calculate_quality_metrics 1 3).issuesPerKloc
      = round2 (((1 : ℚ) / 3) * 1000) := by
    norm_num [calculate_quality_metrics]
  rw [h, round2_eq_of_bounds (((1 : ℚ) / 3) * 1000) 33333 (by norm_num) (by norm_num)]
  norm_num

/-- Claim C1 (amended): the quality-metrics calculation returns quality score
100 with both issue-density figures 0 when lines = 0; otherwise it returns
round(issues/lines × 1000, 2) — the same value reported as both the count and
the per-mille rate — and quality score round(max(0, 100 − 2×(issues/lines ×
1000)), 2), i.e. the claimed formulas with each returned figure rounded to
two decimal places. -/
theorem calculate_quality_metrics_pos (issues lines : ℕ) (h : lines ≠ 0) :
    calculate_quality_metrics issues lines =
      { issuesPerKloc := round2 (((issues : ℚ) / (lines : ℚ)) * 1000)
        issueRatePerKloc := round2 (((issues : ℚ) / (lines : ℚ)) * 1000)
        qualityScore :=
          round2 (max 0 (100 - ((issues : ℚ) / (lines : ℚ)) * 1000 * 2)) } := by
  simp [calculate_quality_metrics, h]

theorem quality_metrics_formula (issues lines : ℕ) (h : lines ≠ 0) :
    calculate_quality_metrics issues 0 =
      { issuesPerKloc := 0, issueRatePerKloc := 0, qualityScore := 100 } ∧
    (calculate_quality_metrics issues lines).issuesPerKloc =
      round2 (((issues : ℚ) / (lines : ℚ)) * 1000) ∧
    (calculate_quality_metrics issues lines).issueRatePerKloc =
      (calculate_quality_metrics issues lines).issuesPerKloc ∧
    (calculate_quality_metrics issues lines).qualityScore =
      round2 (max 0 (100 - 2 * (((issues : ℚ) / (lines : ℚ)) * 1000))) := by
  rw [calculate_quality_metrics_pos issues lines h]
  refine ⟨by simp [calculate_quality_metrics], rfl, rfl, ?_⟩
  exact congrArg round2 (congrArg (max 0) (by ring))

theorem quality_metrics_formula_witness :
    calculate_quality_metrics 1 0 =
      { issuesPerKloc := 0, issueRatePerKloc := 0, qualityScore := 100 } ∧
    (calculate_quality_metrics 1 3).issuesPerKloc =
      round2 ((((1 : ℕ) : ℚ) / ((3 : ℕ) : ℚ)) * 1000) ∧
    (calculate_quality_metrics 1 3).issueRatePerKloc =
      (calculate_quality_metrics 1 3).issuesPerKloc ∧
    (calculate_quality_metrics 1 3).qualityScore =
      round2 (max 0 (100 - 2 * ((((1 : ℕ) : ℚ) / ((3 : ℕ) : ℚ)) * 1000))) :=
  quality_metrics_formula 1 3 (by norm_num)

theorem quantityTierSpec_literals (r : ℚ) :
    quantityTierSpec r =
      if r ≥ 2 then 100
      else if r ≥ 1.5 then 90
      else if r ≥ 1 then 80
      else if r ≥ 0.8 then 70
      else if r ≥ 0.6 then 60
      else if r ≥ 0.4 then 50
      else if r ≥ 0.2 then 40
      else 30 := by
  unfold quantityTierSpec
  norm_num

/-- Claim C2: the quantity score is a pure function of (author total lines,
cohort average lines): 50 when the average is 0, otherwise exactly the
spec's descending-threshold tier map applied to ratio = author/average, and
its value is always one of the eight tier values. -/
theorem quantity_score_tier_correct (t a : ℚ) :
    calculate_quantity_score t a = (if a = 0 then 50 else quantityTierSpec (t / a)) ∧
    calculate_quantity_score t a ∈ ({30, 40, 50, 60, 70, 80, 90, 100} : Set ℚ) := by
  constructor
  · by_cases h : a = 0 <;>
      simp [calculate_quantity_score, quantityTierSpec_literals, h]
  · simp only [calculate_quantity_score]
    split_ifs <;> simp

/-- Claim C3: the final score is round(0.8×quality + 0.2×quantity, 2) for all
inputs, and on the spec's scenario (3 issues over 140 changed lines, cohort
average equal to the author's 140 lines) quality = 57.14, quantity = 80 and
final = 61.71. -/
theorem final_score_weighted_sum :
    (∀ q s : ℚ, calculate_final_score q s = round2 (0.8 * q + 0.2 * s)) ∧
    (calculate_quality_metrics 3 140).qualityScore = 57.14 ∧
    calculate_quantity_score 140 140 = 80 ∧
    calculate_final_score (calculate_quality_metrics 3 140).qualityScore
      (calculate_quantity_score 140 140) = 61.71 := by
  have hq : (calculate_quality_metrics 3 140).qualityScore = 57.14 := by
    have h1 : (calculate_quality_metrics 3 140).qualityScore
        = round2 (max 0 (100 - ((3 : ℚ) / 140) * 1000 * 2)) := by
      norm_num [calculate_quality_metrics]
    have h2 : max (0 : ℚ) (100 - ((3 : ℚ) / 140) * 1000 * 2) = 400 / 7 := by
      rw [max_eq_right] <;> norm_num
    rw [h1, h2, round2_eq_of_bounds (400 / 7) 5714 (by norm_num) (by norm_num)]
    norm_num
  have hs : calculate_quantity_score 140 140 = 80 := by
    norm_num [calculate_quantity_score]
  refine ⟨fun q s => by unfold calculate_final_score; ring_nf, hq, hs, ?_⟩
  rw [hq, hs]
  unfold calculate_final_score
  rw [show (57.14 : ℚ) * 0.8 + 80 * 0.2 = 61.712 by norm_num,
    round2_eq_of_bounds 61.712 6171 (by norm_num) (by norm_num)]
  norm_num

/-- Claim C9: for fixed positive line count the quality score is
monotonically non-increasing in the issue count, and for all inputs the
quality score lies in [0, 100]. -/
theorem quality_score_monotone_and_bounded :
    (∀ lines i j : ℕ, 0 < lines → i ≤ j →
      (calculate_quality_metrics j lines).qualityScore ≤
        (calculate_quality_metrics i lines).qualityScore) ∧
    (∀ issues lines : ℕ,
      0 ≤ (calculate_quality_metrics issues lines).qualityScore ∧
      (calculate_quality_metrics issues lines).qualityScore ≤ 100) := by
  constructor
  · intro lines i j hpos hij
    have hne : lines ≠ 0 := Nat.pos_iff_ne_zero.1 hpos
    rw [calculate_quality_metrics_pos i lines hne,
      calculate_quality_metrics_pos j lines hne]
    apply round2_mono
    have hL : (0 : ℚ) < (lines : ℚ) := by exact_mod_cast hpos
    have hij' : (i : ℚ) ≤ (j : ℚ) := by exact_mod_cast hij
    have hdiv : (i : ℚ) / (lines : ℚ) ≤ (j : ℚ) / (lines : ℚ) := by gcongr
    exact max_le_max le_rfl (by nlinarith)
  · intro issues lines
    by_cases hne : lines = 0
    · subst hne
      simp [calculate_quality_metrics]
    · rw [calculate_quality_metrics_pos issues lines hne]
      have hnn : (0 : ℚ) ≤ ((issues : ℚ) / (lines : ℚ)) * 1000 * 2 := by positivity
      have hub :
          max (0 : ℚ) (100 - ((issues : ℚ) / (lines : ℚ)) * 1000 * 2) ≤ 100 :=
        max_le (by norm_num) (by linarith)
      constructor
      · calc (0 : ℚ) = round2 0 := round2_zero.symm
          _ ≤ round2 (max (0 : ℚ) (100 - ((issues : ℚ) / (lines : ℚ)) * 1000 * 2)) :=
            round2_mono (le_max_left 0 _)
      · calc round2 (max (0 : ℚ) (100 - ((issues : ℚ) / (lines : ℚ)) * 1000 * 2))
            ≤ round2 100 := round2_mono hub
          _ = 100 := round2_hundred

theorem quality_score_monotone_and_bounded_witness :
    ((calculate_quality_metrics 2 10).qualityScore ≤
      (calculate_quality_metrics 1 10).qualityScore) ∧
    (0 ≤ (calculate_quality_metrics 5 7).qualityScore ∧
      (calculate_quality_metrics 5 7).qualityScore ≤ 100) :=
  ⟨quality_score_monotone_and_bounded.1 10 1 2 (by norm_num) (by norm_num),
   quality_score_monotone_and_bounded.2 5 7⟩

/-- A commit as the scanner sees it through the repository backend: author
display name (a Python string, embedded as `List Char`), parent list, the
per-file content the commit introduces (used by the empty-tree diff of a
root commit), the backend-supplied patch text against the first parent, a
flag recording whether the backend read of the diff succeeds (`false`
models the `except` path of `get_commit_diff_content`), and the aggregate
(insertions, deletions, files) statistics, `none` modelling a failing
`commit.stats` read. -/
structure Commit where
  author : List Char
  parents : List Nat
  files : List (List Char × List (List Char))
  parentDiffLines : List (List Char)
  diffOk : Bool
  stats : Option (Nat × Nat × Nat)
deriving DecidableEq, Repr

/-- Modelled from the spec: the repository backend's line-level diff of a
commit against the empty tree (`git.NULL_TREE`), which lives in the external
`git` library, not in this repository.  Per §4.1/§6, the backend yields the
file-header lines of the patch (the one beginning with the reserved triple
marker among them) followed by every content line flagged as an addition,
i.e. prefixed with `'+'`. -/
def emptyTreeDiff (name : List Char) (content : List (List Char)) : List (List Char) :=
  ['-', '-', '-', ' ', '/', 'd', 'e', 'v', '/', 'n', 'u', 'l', 'l'] ::
    ('+' :: '+' :: '+' :: ' ' :: name) ::
    ['@', '@'] ::
    content.map (fun l => '+' :: l)

/-- `GitRepository.get_commit_diff_content` (source lines 136-161): on a
backend failure the `except` handler returns `[]`; otherwise a commit with
parents is diffed against its first parent and a parentless commit against
the empty tree, and the per-file patches are concatenated. -/
def get_commit_diff_content (c : Commit) : List (List Char) :=
  if c.diffOk then
    if c.parents.isEmpty then
      (c.files.map fun f => emptyTreeDiff f.1 f.2).flatten
    else c.parentDiffLines
  else []

/-- The added-line filter of `CodeQualityScanner._analyze_author_code`
(source line 564): `[line[1:] for line in diff_lines if
line.startswith('+') and not line.startswith('+++')]`. -/
def extractNewLines (diff_lines : List (List Char)) : List (List Char) :=
  (diff_lines.filter fun line =>
    ['+'].isPrefixOf line && !(['+', '+', '+'].isPrefixOf line)).map (List.drop 1)

/-- The per-author added-line accumulation loop of `_analyze_author_code`
(source lines 561-565): `all_code_lines` extended with each commit's
extracted new lines. -/
def collectAddedLines (commits : List Commit) : List (List Char) :=
  (commits.map fun c => extractNewLines (get_commit_diff_content c)).flatten

/-- The author-match test of `get_commits_by_author_and_time` (source line
114): `target_author in author_name or author_name in target_author`,
Python's case-sensitive substring containment in both directions. -/
def matchesTarget (target author_name : List Char) : Bool :=
  decide (target <:+: author_name) || decide (author_name <:+: target)

/-- The `for target_author in authors: ... break` scan (source lines
113-116): the first target matching the commit's author name, if any. -/
def firstMatch (targets : List (List Char)) (author_name : List Char) :
    Option (List Char) :=
  targets.find? (fun t => matchesTarget t author_name)

/-- `defaultdict(list)` append: `commits_by_author[author_name].append(commit)`. -/
def insertCommit (m : List (List Char × List Commit)) (key : List Char) (c : Commit) :
    List (List Char × List Commit) :=
  match m with
  | [] => [(key, [c])]
  | (k, cs) :: rest =>
      if k = key then (k, cs ++ [c]) :: rest
      else (k, cs) :: insertCommit rest key c

/-- `GitRepository.get_commits_by_author_and_time` (source lines 89-118),
restricted to its bucketing loop: the date filtering is done by the backend
(`iter_commits(since=…, until=…)`), so the input list stands for the
commits of the window.  A commit whose author name matches some target (the
first match breaking the scan) is appended to the bucket keyed by the
commit's author name. -/
def get_commits_by_author_and_time (targets : List (List Char)) (commits : List Commit) :
    List (List Char × List Commit) :=
  commits.foldl (fun m c =>
    match firstMatch targets c.author with
    | some _ => insertCommit m c.author c
    | none => m) []

/-- Total number of occurrences of a commit across all buckets. -/
def countInBuckets (m : List (List Char × List Commit)) (c : Commit) : Nat :=
  (m.map fun b => b.2.count c).sum

/-- The dictionary returned by `CodeQuantityAnalyzer.analyze_commit_quantity`
(source lines 309-316): 提交次数, 新增代码行数, 删除代码行数, 净增代码行数,
修改文件数, 总变更行数.  Fields are `ℤ` because Python integers are
unbounded signed integers and 净增代码行数 is a difference. -/
structure QuantityMetrics where
  commitCount : ℤ
  insertions : ℤ
  deletions : ℤ
  netLines : ℤ
  filesChanged : ℤ
  totalChangedLines : ℤ
deriving DecidableEq, Repr

/-- The accumulation loop of `analyze_commit_quantity` (source lines
295-307): totals start at zero and each commit whose `stats` read succeeds
adds its insertions, deletions and file count; a failing read (`except:
continue`) adds nothing. -/
def statsStep (acc : Nat × Nat × Nat) (c : Commit) : Nat × Nat × Nat :=
  match c.stats with
  | some s => (acc.1 + s.1, acc.2.1 + s.2.1, acc.2.2 + s.2.2)
  | none => acc

def sumStats (commits : List Commit) : Nat × Nat × Nat :=
  commits.foldl statsStep (0, 0, 0)

/-- `CodeQuantityAnalyzer.analyze_commit_quantity` (source lines 285-316). -/
def analyze_commit_quantity (commits : List Commit) : QuantityMetrics :=
  let s := sumStats commits
  { commitCount := commits.length
    insertions := s.1
    deletions := s.2.1
    netLines := (s.1 : ℤ) - (s.2.1 : ℤ)
    filesChanged := s.2.2
    totalChangedLines := (s.1 : ℤ) + (s.2.1 : ℤ) }

theorem extractNewLines_append (a b : List (List Char)) :
    extractNewLines (a ++ b) = extractNewLines a ++ extractNewLines b := by
  simp [extractNewLines]

theorem extractNewLines_cons_skip (a : List Char) (rest : List (List Char))
    (h : (['+'].isPrefixOf a && !(['+', '+', '+'].isPrefixOf a)) = false) :
    extractNewLines (a :: rest) = extractNewLines rest := by
  simp [extractNewLines, List.filter_cons, h]

theorem extractNewLines_plusMap (content : List (List Char)) :
    extractNewLines (content.map (fun l => '+' :: l)) =
      content.filter (fun l => !(['+', '+'].isPrefixOf l)) := by
  induction content with
  | nil => rfl
  | cons x xs ih =>
      cases hx : ['+', '+'].isPrefixOf x with
      | true =>
          rw [List.map_cons,
            extractNewLines_cons_skip _ _ (by simp [List.isPrefixOf, hx]),
            ih, List.filter_cons]
          simp [hx]
      | false =>
          rw [List.map_cons,
            show extractNewLines (('+' :: x) :: xs.map (fun l => '+' :: l)) =
              x :: extractNewLines (xs.map (fun l => '+' :: l)) by
              simp [extractNewLines, List.filter_cons, List.isPrefixOf, hx],
            ih, List.filter_cons]
          simp [hx]

theorem extractNewLines_emptyTreeDiff (name : List Char)
    (content : List (List Char)) :
    extractNewLines (emptyTreeDiff name content) =
      content.filter (fun l => !(['+', '+'].isPrefixOf l)) := by
  unfold emptyTreeDiff
  rw [extractNewLines_cons_skip _ _ (by simp [List.isPrefixOf]),
    extractNewLines_cons_skip _ _ (by simp [List.isPrefixOf]),
    extractNewLines_cons_skip _ _ (by simp [List.isPrefixOf])]
  exact extractNewLines_plusMap content

theorem extractNewLines_flatten_emptyTreeDiff
    (files : List (List Char × List (List Char))) :
    extractNewLines ((files.map fun f => emptyTreeDiff f.1 f.2).flatten) =
      ((files.map Prod.snd).flatten).filter
        (fun l => !(['+', '+'].isPrefixOf l)) := by
  induction files with
  | nil => rfl
  | cons f fs ih =>
      simp only [List.map_cons, List.flatten_cons]
      rw [extractNewLines_append, extractNewLines_emptyTreeDiff f.1 f.2, ih,
        List.filter_append]

/-- Claim C4 (amended): for every parentless (root) commit whose backend
read succeeds, added-line extraction goes through the empty-tree diff and
returns exactly the commit's content lines that do not themselves begin
with "++", in order — so every such line is returned as an addition, while
a content line beginning with "++" is dropped, because its '+'-flagged diff
form begins with the reserved triple marker that the extraction filter
excludes as a file header. -/
theorem root_commit_pure_addition (c : Commit)
    (hok : c.diffOk = true) (hroot : c.parents = []) :
    extractNewLines (get_commit_diff_content c) =
      ((c.files.map Prod.snd).flatten).filter
        (fun l => !(['+', '+'].isPrefixOf l)) := by
  have hcore := extractNewLines_flatten_emptyTreeDiff c.files
  simpa [get_commit_diff_content, hok, hroot] using hcore

/-- A root commit introducing the two content lines "xy" and "". -/
def simpleRootCommit : Commit :=
  { author := ['a'], parents := [], files := [(['f'], [['x', 'y'], []])],
    parentDiffLines := [], diffOk := true, stats := none }

/-- A root commit mixing ordinary content lines with a line that begins
with "++". -/
def mixedRootCommit : Commit :=
  { author := ['a'], parents := [],
    files := [(['f'], [['x', 'y'], ['+', '+', 'b'], []])],
    parentDiffLines := [], diffOk := true, stats := none }

theorem root_commit_pure_addition_witness :
    extractNewLines (get_commit_diff_content mixedRootCommit) =
      ((mixedRootCommit.files.map Prod.snd).flatten).filter
        (fun l => !(['+', '+'].isPrefixOf l)) :=
  root_commit_pure_addition mixedRootCommit rfl rfl

/-- A root commit introducing the single content line "++x". -/
def rootPlusPlusCommit : Commit :=
  { author := [], parents := [],
    files := [(['f'], [['+', '+', 'x']])],
    parentDiffLines := [], diffOk := true, stats := none }

/-- Claim C4 counterexample: not every line of content introduced by a
parentless commit is returned as an addition.  The root commit introducing
the content line "++x" has that line in its tree, but its diff form "+++x"
begins with the triple marker, so the extraction filter drops it and the
extraction result is empty. -/
theorem root_commit_added_line_lost :
    ['+', '+', 'x'] ∈ (rootPlusPlusCommit.files.map Prod.snd).flatten ∧
    ['+', '+', 'x'] ∉ extractNewLines (get_commit_diff_content rootPlusPlusCommit) := by
  decide

/-- Claim C10: the added lines fed to the issue detector are exactly the
diff lines that begin with '+' but not with "+++", each with its leading
'+' marker removed: every extracted line `l` comes from the diff line
`'+' :: l` (which does not begin with the triple marker), and conversely
every diff line beginning with '+' but not "+++" contributes its tail. -/
theorem added_lines_from_diff (d : List (List Char)) :
    (∀ l ∈ extractNewLines d,
      ('+' :: l) ∈ d ∧ ['+', '+', '+'].isPrefixOf ('+' :: l) = false) ∧
    (∀ line ∈ d, ['+'].isPrefixOf line = true →
      ['+', '+', '+'].isPrefixOf line = false →
      line.drop 1 ∈ extractNewLines d) := by
  constructor
  · intro l hl
    simp only [extractNewLines, List.mem_map, List.mem_filter] at hl
    obtain ⟨orig, ⟨hmem, hcond⟩, hdrop⟩ := hl
    rw [Bool.and_eq_true] at hcond
    obtain ⟨h1, h3⟩ := hcond
    cases orig with
    | nil => simp [List.isPrefixOf] at h1
    | cons a t =>
        have ha : a = '+' := by
          simp [List.isPrefixOf] at h1
          exact h1.symm
        subst ha
        have ht : t = l := by simpa using hdrop
        subst ht
        exact ⟨hmem, by simpa using h3⟩
  · intro line hmem h1 h3
    simp only [extractNewLines, List.mem_map]
    exact ⟨line, List.mem_filter.2 ⟨hmem, by rw [h1, h3]; rfl⟩, rfl⟩

theorem added_lines_from_diff_witness :
    (('+' :: ['a']) ∈ [['+', 'a'], ['x']] ∧
      ['+', '+', '+'].isPrefixOf ('+' :: ['a']) = false) ∧
    List.drop 1 ['+', 'a'] ∈ extractNewLines [['+', 'a'], ['x']] :=
  ⟨(added_lines_from_diff [['+', 'a'], ['x']]).1 ['a'] (by decide),
   (added_lines_from_diff [['+', 'a'], ['x']]).2 ['+', 'a'] (by decide)
     (by decide) (by decide)⟩

theorem countInBuckets_cons (b : List Char × List Commit)
    (rest : List (List Char × List Commit)) (c : Commit) :
    countInBuckets (b :: rest) c = b.2.count c + countInBuckets rest c := by
  simp [countInBuckets]

theorem countInBuckets_insertCommit (m : List (List Char × List Commit))
    (key : List Char) (x c : Commit) :
    countInBuckets (insertCommit m key x) c =
      countInBuckets m c + (if c = x then 1 else 0) := by
  induction m with
  | nil =>
      by_cases hcx : c = x <;>
        simp [insertCommit, countInBuckets, List.count_cons, hcx]
  | cons b rest ih =>
      obtain ⟨k, cs⟩ := b
      by_cases hk : k = key
      · rw [show insertCommit ((k, cs) :: rest) key x = (k, cs ++ [x]) :: rest by
            simp [insertCommit, hk]]
        rw [countInBuckets_cons, countInBuckets_cons]
        by_cases hcx : c = x <;>
          simp [List.count_append, List.count_cons, hcx] <;> omega
      · rw [show insertCommit ((k, cs) :: rest) key x =
            (k, cs) :: insertCommit rest key x by simp [insertCommit, hk]]
        rw [countInBuckets_cons, countInBuckets_cons, ih]
        omega

theorem countInBuckets_fold (targets : List (List Char)) (commits : List Commit)
    (m : List (List Char × List Commit)) (c : Commit) :
    countInBuckets (commits.foldl (fun m c =>
      match firstMatch targets c.author with
      | some _ => insertCommit m c.author c
      | none => m) m) c =
    countInBuckets m c +
      (if (targets.any fun t => matchesTarget t c.author) = true
        then commits.count c else 0) := by
  induction commits generalizing m with
  | nil => simp
  | cons x l ih =>
      simp only [List.foldl_cons]
      rw [ih]
      by_cases hcx : c = x
      · subst hcx
        cases hfm : firstMatch targets c.author with
        | some t =>
            have hany : (targets.any fun t => matchesTarget t c.author) = true := by
              rw [List.any_eq_true]
              have hsome : (firstMatch targets c.author).isSome := by
                rw [hfm]; rfl
              rcases List.find?_isSome.1 hsome with ⟨u, hu, hmu⟩
              exact ⟨u, hu, hmu⟩
            rw [countInBuckets_insertCommit]
            simp [hany, List.count_cons]
            omega
        | none =>
            have hnone : ∀ u ∈ targets, ¬ matchesTarget u c.author = true :=
              List.find?_eq_none.1 hfm
            have hany : (targets.any fun t => matchesTarget t c.author) = false := by
              rw [← Bool.not_eq_true, List.any_eq_true]
              rintro ⟨u, hu, hmu⟩
              exact hnone u hu hmu
            simp [hany]
      · cases hfm : firstMatch targets x.author with
        | some t =>
            rw [countInBuckets_insertCommit]
            simp [hcx, List.count_cons, Ne.symm hcx]
        | none =>
            simp [hcx, List.count_cons, Ne.symm hcx]

/-- Claim C5: over the (backend-filtered) commits of the window, a commit
occurs in the result mapping iff some target name contains or is contained
in the commit's author name (case-sensitively), and then exactly as often
as it occurs in the input (each occurrence is bucketed once, the scan
breaking at the first matching target); moreover the match relation applied
to a target and itself always succeeds, so if target T matches some author
then a commit authored by exactly T also matches T. -/
theorem commit_bucketing (targets : List (List Char)) (commits : List Commit)
    (c : Commit) :
    countInBuckets (get_commits_by_author_and_time targets commits) c =
      (if (targets.any fun t => matchesTarget t c.author) = true
        then commits.count c else 0) ∧
    (∀ T A : List Char, matchesTarget T A = true → matchesTarget T T = true) := by
  constructor
  · have h := countInBuckets_fold targets commits [] c
    simpa [get_commits_by_author_and_time, countInBuckets] using h
  · intro T A hTA
    simp [matchesTarget, List.infix_refl]

def authorAbCommit : Commit :=
  { author := ['a', 'b'], parents := [], files := [], parentDiffLines := [],
    diffOk := true, stats := none }

theorem commit_bucketing_witness :
    (countInBuckets (get_commits_by_author_and_time [['a']] [authorAbCommit])
        authorAbCommit =
      (if (([['a']] : List (List Char)).any
            fun t => matchesTarget t authorAbCommit.author) = true
        then ([authorAbCommit] : List Commit).count authorAbCommit else 0)) ∧
    matchesTarget ['a'] ['a'] = true :=
  ⟨(commit_bucketing [['a']] [authorAbCommit] authorAbCommit).1,
   (commit_bucketing [['a']] [authorAbCommit] authorAbCommit).2
     ['a'] ['a', 'b'] (by decide)⟩

theorem sumStats_go (l : List Commit) (a : Nat × Nat × Nat) :
    l.foldl statsStep a =
      (a.1 + (sumStats l).1, a.2.1 + (sumStats l).2.1, a.2.2 + (sumStats l).2.2) := by
  induction l generalizing a with
  | nil => simp [sumStats]
  | cons c l ih =>
      have hL : (c :: l).foldl statsStep a = l.foldl statsStep (statsStep a c) := rfl
      have hR : sumStats (c :: l) = l.foldl statsStep (statsStep (0, 0, 0) c) := by
        simp [sumStats]
      rw [hL, ih (statsStep a c), hR, ih (statsStep (0, 0, 0) c)]
      cases hs : c.stats <;> simp [statsStep, hs, Prod.ext_iff] <;> omega

theorem sumStats_append (xs ys : List Commit) :
    sumStats (xs ++ ys) =
      ((sumStats xs).1 + (sumStats ys).1,
        (sumStats xs).2.1 + (sumStats ys).2.1,
        (sumStats xs).2.2 + (sumStats ys).2.2) := by
  unfold sumStats
  rw [List.foldl_append]
  exact sumStats_go ys (List.foldl statsStep (0, 0, 0) xs)

theorem sumStats_none_cons (c : Commit) (l : List Commit) (h : c.stats = none) :
    sumStats (c :: l) = sumStats l := by
  simp [sumStats, statsStep, h]

/-- Claim C6: a commit whose stats read fails contributes nothing to the
totals of its author's quantity aggregate (only the raw commit count, which
is the length of the list, still counts it), and a commit whose diff read
fails contributes no added lines; in both cases the surrounding commits of
the same author are processed unchanged and the batch continues. -/
theorem per_commit_failure_isolated :
    (∀ (pre post : List Commit) (c : Commit), c.stats = none →
      analyze_commit_quantity (pre ++ c :: post) =
        { analyze_commit_quantity (pre ++ post) with
            commitCount := (analyze_commit_quantity (pre ++ post)).commitCount + 1 }) ∧
    (∀ (pre post : List Commit) (c : Commit), c.diffOk = false →
      collectAddedLines (pre ++ c :: post) = collectAddedLines (pre ++ post)) := by
  constructor
  · intro pre post c h
    have hs : sumStats (pre ++ c :: post) = sumStats (pre ++ post) := by
      rw [sumStats_append, sumStats_none_cons c post h, sumStats_append]
    simp only [analyze_commit_quantity, hs, QuantityMetrics.mk.injEq,
      List.length_append, List.length_cons, and_true, true_and]
    push_cast
    ring
  · intro pre post c h
    simp [collectAddedLines, get_commit_diff_content, h, extractNewLines]

/-- A non-root commit whose diff read fails. -/
def failingDiffCommit : Commit :=
  { author := [], parents := [0], files := [], parentDiffLines := [['+', 'q']],
    diffOk := false, stats := some (1, 2, 3) }

theorem per_commit_failure_isolated_witness :
    (analyze_commit_quantity
        [simpleRootCommit, rootPlusPlusCommit, authorAbCommit] =
      { analyze_commit_quantity [simpleRootCommit, rootPlusPlusCommit] with
          commitCount :=
            (analyze_commit_quantity
              [simpleRootCommit, rootPlusPlusCommit]).commitCount + 1 }) ∧
    collectAddedLines [failingDiffCommit] = collectAddedLines [] :=
  ⟨per_commit_failure_isolated.1 [simpleRootCommit, rootPlusPlusCommit] []
      authorAbCommit rfl,
   per_commit_failure_isolated.2 [] [] failingDiffCommit rfl⟩

/-- A commit that deletes more lines than it inserts: 0 insertions, 5
deletions, 1 file changed. -/
def deletionOnlyCommit : Commit :=
  { author := [], parents := [0], files := [], parentDiffLines := [],
    diffOk := true, stats := some (0, 5, 1) }

/-- Claim C7 counterexample: not all six quantity metrics are non-negative —
净增代码行数 (net lines) is `insertions - deletions` and is negative for an
author whose commits delete more than they insert. -/
theorem quantity_metrics_net_negative :
    (analyze_commit_quantity [deletionOnlyCommit]).netLines < 0 := by decide

/-- Claim C7 (amended): the six quantity metrics are integers,
zero-initialized and accumulated additively over the author's commits;
commit count, insertions, deletions, files changed and total changed lines
are always non-negative, while net lines (insertions − deletions) may be
negative. -/
theorem quantity_metrics_additive :
    analyze_commit_quantity [] =
      { commitCount := 0, insertions := 0, deletions := 0, netLines := 0,
        filesChanged := 0, totalChangedLines := 0 } ∧
    (∀ xs ys : List Commit,
      analyze_commit_quantity (xs ++ ys) =
        { commitCount := (analyze_commit_quantity xs).commitCount +
            (analyze_commit_quantity ys).commitCount
          insertions := (analyze_commit_quantity xs).insertions +
            (analyze_commit_quantity ys).insertions
          deletions := (analyze_commit_quantity xs).deletions +
            (analyze_commit_quantity ys).deletions
          netLines := (analyze_commit_quantity xs).netLines +
            (analyze_commit_quantity ys).netLines
          filesChanged := (analyze_commit_quantity xs).filesChanged +
            (analyze_commit_quantity ys).filesChanged
          totalChangedLines := (analyze_commit_quantity xs).totalChangedLines +
            (analyze_commit_quantity ys).totalChangedLines }) ∧
    (∀ commits : List Commit,
      0 ≤ (analyze_commit_quantity commits).commitCount ∧
      0 ≤ (analyze_commit_quantity commits).insertions ∧
      0 ≤ (analyze_commit_quantity commits).deletions ∧
      0 ≤ (analyze_commit_quantity commits).filesChanged ∧
      0 ≤ (analyze_commit_quantity commits).totalChangedLines) := by
  refine ⟨by decide, ?_, ?_⟩
  · intro xs ys
    simp only [analyze_commit_quantity, sumStats_append, QuantityMetrics.mk.injEq,
      List.length_append]
    refine ⟨?_, ?_, ?_, ?_, ?_, ?_⟩ <;> push_cast <;> ring
  · intro commits
    simp only [analyze_commit_quantity]
    refine ⟨?_, ?_, ?_, ?_, ?_⟩ <;> positivity

/-- The kinds of Python AST nodes the structural analyzer distinguishes. -/
inductive PyKind where
  | functionDef
  | classDef
  | ifStmt
  | forStmt
  | whileStmt
  | tryStmt
  | exceptHandler
  | otherStmt
deriving DecidableEq, Repr

/-- A Python AST node: a kind together with its child nodes. -/
inductive PyNode where
  | mk (kind : PyKind) (children : List PyNode)

def PyNode.kind : PyNode → PyKind
  | .mk k _ => k

def PyNode.children : PyNode → List PyNode
  | .mk _ cs => cs

/- `walk` models `ast.walk`: the node itself and all of its descendants
(the source iterates breadth-first; only the set of visited nodes matters
to the counters, so depth-first order is used here). -/
mutual
def walk : PyNode → List PyNode
  | .mk k cs => .mk k cs :: walkList cs
def walkList : List PyNode → List PyNode
  | [] => []
  | n :: ns => walk n ++ walkList ns
end

/-- The node kinds counted by `_calculate_complexity` (source lines
261-267): `ast.If, ast.For, ast.While, ast.Try, ast.ExceptHandler`. -/
def isBranchKind : PyKind → Bool
  | .ifStmt => true
  | .forStmt => true
  | .whileStmt => true
  | .tryStmt => true
  | .exceptHandler => true
  | _ => false

/-- `CodeQualityAnalyzer._calculate_complexity` (source lines 261-267):
1 plus the number of branch constructs in `ast.walk(node)`. -/
def complexity (n : PyNode) : Nat :=
  1 + ((walk n).filter (fun m => isBranchKind m.kind)).length

/-- The node kinds `_calculate_nesting_depth` recurses into (source lines
269-276): `ast.For, ast.While, ast.If, ast.Try`. -/
def isNestingKind : PyKind → Bool
  | .forStmt => true
  | .whileStmt => true
  | .ifStmt => true
  | .tryStmt => true
  | _ => false

/- `nestingDepth` models `CodeQualityAnalyzer._calculate_nesting_depth`
(source lines 269-276): starting from `depth`, the maximum over direct
children of nesting kind of their recursive depth at `depth + 1`. -/
mutual
def nestingDepth : PyNode → Nat → Nat
  | .mk _ cs, depth => nestingDepthList cs depth depth
def nestingDepthList : List PyNode → Nat → Nat → Nat
  | [], _, acc => acc
  | c :: cs, depth, acc =>
      nestingDepthList cs depth
        (if isNestingKind c.kind then max acc (nestingDepth c (depth + 1)) else acc)
end

/-- The node kinds whose nesting depth the analyzer checks (source line
249): `ast.For, ast.While, ast.If`. -/
def isDepthCheckKind : PyKind → Bool
  | .forStmt => true
  | .whileStmt => true
  | .ifStmt => true
  | _ => false

/-- Number of walked function definitions with complexity above 10
(source lines 243-246). -/
def countHighComplexity (t : PyNode) : Nat :=
  ((walk t).filter (fun n =>
    n.kind == PyKind.functionDef && decide (complexity n > 10))).length

/-- Number of walked conditional/loop constructs with nesting depth above 3
(source lines 249-252). -/
def countDeepNesting (t : PyNode) : Nat :=
  ((walk t).filter (fun n =>
    isDepthCheckKind n.kind && decide (nestingDepth n 0 > 3))).length

/-- Outcome of `ast.parse` on the blob, as the `try`/`except` structure of
`analyze_python_syntax` distinguishes it: a tree on success, the
`SyntaxError` branch on invalid input, and the bare `except` branch on any
other failure.  The parser itself is Python's standard library, external to
this repository. -/
inductive ParseOutcome where
  | parsed (tree : PyNode)
  | invalidInput
  | otherFailure

/-- `CodeQualityAnalyzer.analyze_python_syntax` (source lines 224-259),
with the returned dictionary represented as an association list whose keys
are present exactly when their counter was incremented: on success the
高复杂度函数 and 过深嵌套 counters, on invalid input a single 语法错误
entry of 1, on any other failure the empty dictionary. -/
def analyze_python_ast (p : ParseOutcome) : List (String × Nat) :=
  match p with
  | .parsed t =>
      (if countHighComplexity t ≠ 0
        then [("高复杂度函数", countHighComplexity t)] else []) ++
      (if countDeepNesting t ≠ 0
        then [("过深嵌套", countDeepNesting t)] else [])
  | .invalidInput => [("语法错误", 1)]
  | .otherFailure => []

/-- Claim C8: on parse failure the structural analyzer returns exactly one
语法错误 (syntax-error) entry with count 1 and nothing else; on any other
unexpected failure it returns an empty result; and a 语法错误 entry never
appears when parsing succeeds. -/
theorem ast_analysis_error_handling :
    analyze_python_ast ParseOutcome.invalidInput = [("语法错误", 1)] ∧
    analyze_python_ast ParseOutcome.otherFailure = [] ∧
    (∀ t : PyNode, ∀ e ∈ analyze_python_ast (ParseOutcome.parsed t),
      e.1 ≠ "语法错误") := by
  refine ⟨rfl, rfl, ?_⟩
  intro t e he
  simp only [analyze_python_ast, List.mem_append] at he
  rcases he with h | h
  · by_cases hc : countHighComplexity t ≠ 0
    · rw [if_pos hc] at h
      simp only [List.mem_singleton] at h
      subst h
      show ("高复杂度函数" : String) ≠ "语法错误"
      decide
    · rw [if_neg hc] at h
      simp at h
  · by_cases hc : countDeepNesting t ≠ 0
    · rw [if_pos hc] at h
      simp only [List.mem_singleton] at h
      subst h
      show ("过深嵌套" : String) ≠ "语法错误"
      decide
    · rw [if_neg hc] at h
      simp at h

/-- Five directly nested `if` statements. -/
def nestedIfTree : PyNode :=
  .mk .ifStmt [.mk .ifStmt [.mk .ifStmt [.mk .ifStmt [.mk .ifStmt []]]]]

theorem countHighComplexity_nestedIfTree : countHighComplexity nestedIfTree = 0 := by
  simp [countHighComplexity, nestedIfTree, walk, walkList, PyNode.kind]

theorem countDeepNesting_nestedIfTree : countDeepNesting nestedIfTree = 1 := by
  simp [countDeepNesting, nestedIfTree, walk, walkList, nestingDepth,
    nestingDepthList, isDepthCheckKind, isNestingKind, PyNode.kind]

theorem ast_analysis_error_handling_witness :
    (("过深嵌套", 1) : String × Nat).1 ≠ "语法错误" :=
  ast_analysis_error_handling.2.2 nestedIfTree ("过深嵌套", 1) (by
    simp [analyze_python_ast, countHighComplexity_nestedIfTree,
      countDeepNesting_nestedIfTree])
